import Mathlib

/-!
# Verification of the libas ingest + transcription pipeline

A shallow embedding, in Lean 4, of the parts of the `bosley/libas`
repository that the specification's claims are about:

* the WAV container writer (`audio` package: `WriteWavHeader`,
  `UpdateWavHeader`, `ResampleForWhisper`);
* the ingest connection handler and utterance state machine
  (`libaserv` package: `handleConnection`, `handleIncompleteTransmission`);
* the directory watcher's event filter (`scribe` package: `handleFSEvent`);
* the worker's transcript extraction and subscriber fan-out
  (`scribe` package: `extractText`, `processJob`, `handleWebSocket`).

Go strings and byte slices are modelled as `List Char` / `List Nat`
(the paths and protocol strings involved are ASCII, where Go's byte
indexing and character indexing coincide); unsigned 32-bit machine
arithmetic is modelled as `Nat` with explicit `% 2 ^ 32` where the Go
code truncates.  Wall-clock instants are nanosecond counts (`Nat`),
matching Go's `time.Duration` resolution; `time.Second` is `10 ^ 9`
nanoseconds.
-/

namespace Libas

/-! ## Byte-level helpers (little-endian encoding used by `encoding/binary`) -/

/-- The four bytes of `n` (a `uint32` value) in little-endian order,
as written by `binary.Write(file, binary.LittleEndian, n)`. -/
def le32 (n : Nat) : List Nat :=
  [n % 256, n / 256 % 256, n / 2 ^ 16 % 256, n / 2 ^ 24 % 256]

/-- The two bytes of `n` (a `uint16` value) in little-endian order. -/
def le16 (n : Nat) : List Nat :=
  [n % 256, n / 256 % 256]

/-- Read a 32-bit little-endian value from a byte list at offset `off`. -/
def readLE32 (file : List Nat) (off : Nat) : Nat :=
  (file.drop off).take 4 |>.foldr (fun b acc => b + 256 * acc) 0

@[simp] theorem le32_length (n : Nat) : (le32 n).length = 4 := rfl

theorem readLE32_le32 (n : Nat) (hn : n < 2 ^ 32) (rest : List Nat) :
    readLE32 (le32 n ++ rest) 0 = n := by
  simp only [readLE32, le32, List.drop_zero, List.cons_append, List.nil_append,
    List.take_succ_cons, List.take_zero, List.foldr_cons, List.foldr_nil]
  omega

/-! ## Audio container writer (`audio` package, `wav.go`)

`WriteWavHeader` serializes a 44-byte `WavHeader` struct with
`binary.Write(file, binary.LittleEndian, header)`; the struct layout is

```
ChunkID [4]byte = "RIFF"        offset 0
ChunkSize uint32 = dataSize+36  offset 4
Format [4]byte = "WAVE"         offset 8
Subchunk1ID [4]byte = "fmt "    offset 12
Subchunk1Size uint32 = 16       offset 16
AudioFormat uint16 = 1          offset 20
NumChannels uint16 = 1          offset 22
SampleRate uint32 = 44100       offset 24
ByteRate uint32 = 44100*1*16/8  offset 28
BlockAlign uint16 = 1*16/8      offset 32
BitsPerSample uint16 = 16       offset 34
Subchunk2ID [4]byte = "data"    offset 36
Subchunk2Size uint32 = dataSize offset 40
```
-/

/-- The `recordingSampleRate` constant of the `audio` package. -/
def recordingSampleRate : Nat := 44100

/-- The `channels` constant of the `audio` package. -/
def channels : Nat := 1

/-- The `bitsPerSample` constant of the `audio` package. -/
def bitsPerSample : Nat := 16

/-- The 44 bytes `WriteWavHeader(file, dataSize)` writes to a fresh file.
`dataSize` is a Go `uint32`, so the `dataSize + 36` sum wraps modulo `2^32`. -/
def writeWavHeader (dataSize : Nat) : List Nat :=
  [82, 73, 70, 70]                    -- "RIFF"
  ++ le32 ((dataSize + 36) % 2 ^ 32)  -- ChunkSize
  ++ [87, 65, 86, 69]                 -- "WAVE"
  ++ [102, 109, 116, 32]              -- "fmt "
  ++ le32 16                          -- Subchunk1Size
  ++ le16 1                           -- AudioFormat (PCM)
  ++ le16 channels                    -- NumChannels
  ++ le32 recordingSampleRate         -- SampleRate
  ++ le32 (recordingSampleRate * channels * bitsPerSample / 8)  -- ByteRate
  ++ le16 (channels * bitsPerSample / 8)                        -- BlockAlign
  ++ le16 bitsPerSample               -- BitsPerSample
  ++ [100, 97, 116, 97]               -- "data"
  ++ le32 (dataSize % 2 ^ 32)         -- Subchunk2Size

/-- Overwrite the bytes of `file` starting at `off` with `bytes`
(the effect of `file.Seek(off, 0)` followed by a write). -/
def writeAt (file : List Nat) (off : Nat) (bytes : List Nat) : List Nat :=
  file.take off ++ bytes ++ file.drop (off + bytes.length)

/-- Go function `UpdateWavHeader(file, dataSize)`: seek to offset 4 and write
`uint32(dataSize+36)`, then seek to offset 40 and write `dataSize`. -/
def updateWavHeader (file : List Nat) (dataSize : Nat) : List Nat :=
  writeAt (writeAt file 4 (le32 ((dataSize + 36) % 2 ^ 32))) 40 (le32 (dataSize % 2 ^ 32))

/-- Read a 16-bit little-endian value from a byte list at offset `off`. -/
def readLE16 (file : List Nat) (off : Nat) : Nat :=
  (file.drop off).take 2 |>.foldr (fun b acc => b + 256 * acc) 0

set_option maxHeartbeats 1000000
set_option maxRecDepth 8000

theorem updateWavHeader_writeWavHeader (d0 d : Nat) (data : List Nat) :
    updateWavHeader (writeWavHeader d0 ++ data) d = writeWavHeader d ++ data := rfl

theorem readLE32_of_drop (l rest : List Nat) (off n : Nat)
    (h : l.drop off = le32 n ++ rest) (hn : n < 2 ^ 32) : readLE32 l off = n := by
  unfold readLE32
  rw [h]
  simp only [le32, List.cons_append, List.nil_append, List.take_succ_cons,
    List.take_zero, List.foldr_cons, List.foldr_nil]
  omega

theorem readLE16_of_drop (l rest : List Nat) (off n : Nat)
    (h : l.drop off = le16 n ++ rest) (hn : n < 2 ^ 16) : readLE16 l off = n := by
  unfold readLE16
  rw [h]
  simp only [le16, List.cons_append, List.nil_append, List.take_succ_cons,
    List.take_zero, List.foldr_cons, List.foldr_nil]
  omega

theorem wav_drop_4 (d : Nat) (data : List Nat) :
    (writeWavHeader d ++ data).drop 4 =
      le32 ((d + 36) % 2 ^ 32)
      ++ ([87, 65, 86, 69] ++ ([102, 109, 116, 32] ++ (le32 16 ++ (le16 1
      ++ (le16 channels ++ (le32 recordingSampleRate
      ++ (le32 (recordingSampleRate * channels * bitsPerSample / 8)
      ++ (le16 (channels * bitsPerSample / 8) ++ (le16 bitsPerSample
      ++ ([100, 97, 116, 97] ++ (le32 (d % 2 ^ 32) ++ data))))))))))) := rfl

theorem wav_drop_20 (d : Nat) (data : List Nat) :
    (writeWavHeader d ++ data).drop 20 =
      le16 1 ++ (le16 channels ++ (le32 recordingSampleRate
      ++ (le32 (recordingSampleRate * channels * bitsPerSample / 8)
      ++ (le16 (channels * bitsPerSample / 8) ++ (le16 bitsPerSample
      ++ ([100, 97, 116, 97] ++ (le32 (d % 2 ^ 32) ++ data))))))) := rfl

theorem wav_drop_22 (d : Nat) (data : List Nat) :
    (writeWavHeader d ++ data).drop 22 =
      le16 channels ++ (le32 recordingSampleRate
      ++ (le32 (recordingSampleRate * channels * bitsPerSample / 8)
      ++ (le16 (channels * bitsPerSample / 8) ++ (le16 bitsPerSample
      ++ ([100, 97, 116, 97] ++ (le32 (d % 2 ^ 32) ++ data)))))) := rfl

theorem wav_drop_24 (d : Nat) (data : List Nat) :
    (writeWavHeader d ++ data).drop 24 =
      le32 recordingSampleRate
      ++ (le32 (recordingSampleRate * channels * bitsPerSample / 8)
      ++ (le16 (channels * bitsPerSample / 8) ++ (le16 bitsPerSample
      ++ ([100, 97, 116, 97] ++ (le32 (d % 2 ^ 32) ++ data))))) := rfl

theorem wav_drop_28 (d : Nat) (data : List Nat) :
    (writeWavHeader d ++ data).drop 28 =
      le32 (recordingSampleRate * channels * bitsPerSample / 8)
      ++ (le16 (channels * bitsPerSample / 8) ++ (le16 bitsPerSample
      ++ ([100, 97, 116, 97] ++ (le32 (d % 2 ^ 32) ++ data)))) := rfl

theorem wav_drop_32 (d : Nat) (data : List Nat) :
    (writeWavHeader d ++ data).drop 32 =
      le16 (channels * bitsPerSample / 8) ++ (le16 bitsPerSample
      ++ ([100, 97, 116, 97] ++ (le32 (d % 2 ^ 32) ++ data))) := rfl

theorem wav_drop_34 (d : Nat) (data : List Nat) :
    (writeWavHeader d ++ data).drop 34 =
      le16 bitsPerSample
      ++ ([100, 97, 116, 97] ++ (le32 (d % 2 ^ 32) ++ data)) := rfl

theorem wav_drop_40 (d : Nat) (data : List Nat) :
    (writeWavHeader d ++ data).drop 40 = le32 (d % 2 ^ 32) ++ data := rfl

theorem wav_core_riff (d : Nat) (data : List Nat) :
    (writeWavHeader d ++ data).take 4 = [82, 73, 70, 70] := rfl

theorem wav_core_take4_unchanged (d : Nat) (data : List Nat) :
    (writeWavHeader d ++ data).take 4 = (writeWavHeader 0 ++ data).take 4 := rfl

theorem wav_core_mid_unchanged (d : Nat) (data : List Nat) :
    ((writeWavHeader d ++ data).drop 8).take 32 =
      ((writeWavHeader 0 ++ data).drop 8).take 32 := rfl

theorem wav_core_wave (d : Nat) (data : List Nat) :
    ((writeWavHeader d ++ data).drop 8).take 4 = [87, 65, 86, 69] := rfl

theorem wav_core_fmt (d : Nat) (data : List Nat) :
    ((writeWavHeader d ++ data).drop 12).take 4 = [102, 109, 116, 32] := rfl

theorem wav_core_chunkSize (d : Nat) (data : List Nat) (h : d + 36 < 2 ^ 32) :
    readLE32 (writeWavHeader d ++ data) 4 = d + 36 := by
  have hn : (d + 36) % 2 ^ 32 = d + 36 := Nat.mod_eq_of_lt h
  have := readLE32_of_drop (writeWavHeader d ++ data) _ 4 ((d + 36) % 2 ^ 32)
    (wav_drop_4 d data) (by omega)
  omega

theorem wav_core_dataSize (d : Nat) (data : List Nat) (h : d < 2 ^ 32) :
    readLE32 (writeWavHeader d ++ data) 40 = d := by
  have hn : d % 2 ^ 32 = d := Nat.mod_eq_of_lt h
  have := readLE32_of_drop (writeWavHeader d ++ data) _ 40 (d % 2 ^ 32)
    (wav_drop_40 d data) (by omega)
  omega

theorem wav_core_audioFormat (d : Nat) (data : List Nat) :
    readLE16 (writeWavHeader d ++ data) 20 = 1 :=
  readLE16_of_drop (writeWavHeader d ++ data) _ 20 1 (wav_drop_20 d data) (by norm_num)

theorem wav_core_numChannels (d : Nat) (data : List Nat) :
    readLE16 (writeWavHeader d ++ data) 22 = 1 := by
  have := readLE16_of_drop (writeWavHeader d ++ data) _ 22 channels
    (wav_drop_22 d data) (by norm_num [channels])
  rw [this]; norm_num [channels]

theorem wav_core_sampleRate (d : Nat) (data : List Nat) :
    readLE32 (writeWavHeader d ++ data) 24 = 44100 := by
  have := readLE32_of_drop (writeWavHeader d ++ data) _ 24 recordingSampleRate
    (wav_drop_24 d data) (by norm_num [recordingSampleRate])
  rw [this]; norm_num [recordingSampleRate]

theorem wav_core_byteRate (d : Nat) (data : List Nat) :
    readLE32 (writeWavHeader d ++ data) 28 = 88200 := by
  have := readLE32_of_drop (writeWavHeader d ++ data) _ 28
    (recordingSampleRate * channels * bitsPerSample / 8) (wav_drop_28 d data)
    (by norm_num [recordingSampleRate, channels, bitsPerSample])
  rw [this]; norm_num [recordingSampleRate, channels, bitsPerSample]

theorem wav_core_blockAlign (d : Nat) (data : List Nat) :
    readLE16 (writeWavHeader d ++ data) 32 = 2 := by
  have := readLE16_of_drop (writeWavHeader d ++ data) _ 32
    (channels * bitsPerSample / 8) (wav_drop_32 d data)
    (by norm_num [channels, bitsPerSample])
  rw [this]; norm_num [channels, bitsPerSample]

theorem wav_core_bps (d : Nat) (data : List Nat) :
    readLE16 (writeWavHeader d ++ data) 34 = 16 := by
  have := readLE16_of_drop (writeWavHeader d ++ data) _ 34 bitsPerSample
    (wav_drop_34 d data) (by norm_num [bitsPerSample])
  rw [this]; norm_num [bitsPerSample]

theorem wav_core_dataTag (d : Nat) (data : List Nat) :
    ((writeWavHeader d ++ data).drop 36).take 4 = [100, 97, 116, 97] := rfl

theorem wav_core_payload (d : Nat) (data : List Nat) :
    (writeWavHeader d ++ data).drop 44 = data := rfl

theorem wav_patch_core (d : Nat) (data : List Nat) (h : d + 36 < 2 ^ 32) :
    readLE32 (writeWavHeader d ++ data) 4 = d + 36 ∧
    readLE32 (writeWavHeader d ++ data) 40 = d ∧
    (writeWavHeader d ++ data).take 4 = (writeWavHeader 0 ++ data).take 4 ∧
    ((writeWavHeader d ++ data).drop 8).take 32 =
      ((writeWavHeader 0 ++ data).drop 8).take 32 ∧
    (writeWavHeader d ++ data).take 4 = [82, 73, 70, 70] ∧
    ((writeWavHeader d ++ data).drop 8).take 4 = [87, 65, 86, 69] ∧
    ((writeWavHeader d ++ data).drop 12).take 4 = [102, 109, 116, 32] ∧
    readLE16 (writeWavHeader d ++ data) 20 = 1 ∧
    readLE16 (writeWavHeader d ++ data) 22 = 1 ∧
    readLE32 (writeWavHeader d ++ data) 24 = 44100 ∧
    readLE32 (writeWavHeader d ++ data) 28 = 88200 ∧
    readLE16 (writeWavHeader d ++ data) 32 = 2 ∧
    readLE16 (writeWavHeader d ++ data) 34 = 16 ∧
    ((writeWavHeader d ++ data).drop 36).take 4 = [100, 97, 116, 97] ∧
    (writeWavHeader d ++ data).drop 44 = data :=
  ⟨wav_core_chunkSize d data h, wav_core_dataSize d data (by omega),
    wav_core_take4_unchanged d data, wav_core_mid_unchanged d data,
    wav_core_riff d data, wav_core_wave d data, wav_core_fmt d data,
    wav_core_audioFormat d data, wav_core_numChannels d data, wav_core_sampleRate d data,
    wav_core_byteRate d data, wav_core_blockAlign d data, wav_core_bps d data,
    wav_core_dataTag d data, wav_core_payload d data⟩

/-- C4. Writing the container header (`WriteWavHeader` with data size 0, as
`startFile` does), appending the payload, then patching with `UpdateWavHeader d`
yields a descriptor whose total-size field at offset 4 is `d + 36` and whose
data-size field at offset 40 is `d`; every other descriptor byte — the
`RIFF`/`WAVE`/`fmt `/`data` tags, PCM format tag 1, 1 channel, 44100 Hz sample
rate, 88200 byte rate, block align 2, 16 bits per sample — is unchanged from
the initial write (bytes 0-3 and 8-39 are byte-for-byte those of the initial
header), and the payload bytes after offset 44 are untouched. -/
theorem wav_write_then_patch (d : Nat) (data : List Nat) (h : d + 36 < 2 ^ 32) :
    readLE32 (updateWavHeader (writeWavHeader 0 ++ data) d) 4 = d + 36 ∧
    readLE32 (updateWavHeader (writeWavHeader 0 ++ data) d) 40 = d ∧
    (updateWavHeader (writeWavHeader 0 ++ data) d).take 4 =
      (writeWavHeader 0 ++ data).take 4 ∧
    ((updateWavHeader (writeWavHeader 0 ++ data) d).drop 8).take 32 =
      ((writeWavHeader 0 ++ data).drop 8).take 32 ∧
    (updateWavHeader (writeWavHeader 0 ++ data) d).take 4 = [82, 73, 70, 70] ∧
    ((updateWavHeader (writeWavHeader 0 ++ data) d).drop 8).take 4 = [87, 65, 86, 69] ∧
    ((updateWavHeader (writeWavHeader 0 ++ data) d).drop 12).take 4 = [102, 109, 116, 32] ∧
    readLE16 (updateWavHeader (writeWavHeader 0 ++ data) d) 20 = 1 ∧
    readLE16 (updateWavHeader (writeWavHeader 0 ++ data) d) 22 = 1 ∧
    readLE32 (updateWavHeader (writeWavHeader 0 ++ data) d) 24 = 44100 ∧
    readLE32 (updateWavHeader (writeWavHeader 0 ++ data) d) 28 = 88200 ∧
    readLE16 (updateWavHeader (writeWavHeader 0 ++ data) d) 32 = 2 ∧
    readLE16 (updateWavHeader (writeWavHeader 0 ++ data) d) 34 = 16 ∧
    ((updateWavHeader (writeWavHeader 0 ++ data) d).drop 36).take 4 = [100, 97, 116, 97] ∧
    (updateWavHeader (writeWavHeader 0 ++ data) d).drop 44 = data := by
  rw [updateWavHeader_writeWavHeader]
  exact wav_patch_core d data h

/-- Witness for `wav_write_then_patch` at data size 4 (two 16-bit samples). -/
theorem wav_write_then_patch_witness :
    readLE32 (updateWavHeader (writeWavHeader 0 ++ [0, 1, 0, 2]) 4) 4 = 4 + 36 ∧
    readLE32 (updateWavHeader (writeWavHeader 0 ++ [0, 1, 0, 2]) 4) 40 = 4 ∧
    (updateWavHeader (writeWavHeader 0 ++ [0, 1, 0, 2]) 4).drop 44 = [0, 1, 0, 2] := by
  obtain ⟨h1, h2, -, -, -, -, -, -, -, -, -, -, -, -, h3⟩ :=
    wav_write_then_patch 4 [0, 1, 0, 2] (by norm_num)
  exact ⟨h1, h2, h3⟩

/-! ## Ingest server connection handler (`libaserv` package, `server.go`)

`handleConnection` loops: read a 4-byte big-endian prefix with
`io.ReadFull`; `0xFFFFFFFF` starts an utterance (reset buffer, record
start time, `startFile`), `0x00000000` ends it (short utterances —
strictly under one second — are closed and removed, others are finalized
by `finishCurrentFile`: `UpdateWavHeader(uint32(len(transmissionBuffer)))`,
close, `ResampleForWhisper`), and any other prefix while
`isReceivingTransmission` is a payload frame: exactly that many bytes are
read (no upper bound is checked) and appended to the buffer and the file.
A failed prefix read invokes `handleIncompleteTransmission` when
recording; a failed payload read merely returns (the deferred handler
closes the file).

The interpreter below runs the handler over a list of `Packet`s, each one
loop iteration's input.  Each on-disk artifact ever created by
`startFile` is tracked as an `Artifact`; `received` is ghost
instrumentation counting the payload-frame bytes written to that artifact
while it was the handler's current file (i.e. between its start marker
and whatever ended it). -/

/-- One `time.Second` in nanoseconds. -/
def oneSecond : Nat := 10 ^ 9

/-- What became of an on-disk artifact created by `startFile`. -/
inductive FileFate
  /-- The `*os.File` handle is still open; the file holds a placeholder header. -/
  | open_
  /-- Finalized: `finishCurrentFile` ran, header patched with `dataSize`, file closed,
  and (when `resampled` is true) `ResampleForWhisper` invoked on the path. -/
  | finalized (dataSize : Nat) (resampled : Bool)
  /-- Closed and `os.Remove`d. -/
  | deleted
  /-- Closed and `os.Rename`d to `<name>.incomplete`. -/
  | renamedIncomplete
  /-- Closed by the handler's deferred cleanup only: the file remains on
  disk under its original name, neither patched, deleted nor renamed. -/
  | closedOnly
deriving DecidableEq, Repr

/-- One artifact created by `startFile`, with ghost byte accounting. -/
structure Artifact where
  fate : FileFate
  received : Nat
deriving DecidableEq, Repr

/-- One loop iteration's input to `handleConnection`.  Times are
nanosecond wall-clock instants (`time.Now()`). -/
inductive Packet
  /-- Prefix `0xFFFFFFFF` read successfully at time `t`. -/
  | startMarker (t : Nat)
  /-- Prefix `0x00000000` read successfully at time `t`. -/
  | endMarker (t : Nat)
  /-- A payload prefix equal to `data.length` (neither marker value) read
  successfully, followed by a successful `io.ReadFull` of the payload. -/
  | payload (data : List Nat) (t : Nat)
  /-- A payload prefix of `declared` bytes read successfully while
  recording, with the subsequent `io.ReadFull` of the payload failing
  (unexpected EOF mid-payload). -/
  | payloadTruncated (declared : Nat) (t : Nat)
  /-- The 4-byte prefix read itself failed (peer close or read error). -/
  | disconnect (t : Nat)

/-- The local state of one `handleConnection` invocation. -/
structure ConnState where
  /-- The `transmissionBuffer`. -/
  buffer : List Nat
  /-- The `isReceivingTransmission` flag. -/
  isReceiving : Bool
  /-- The `file` variable: index of the handler's current artifact, if non-nil. -/
  file : Option Nat
  /-- The `transmissionStartTime` (nanoseconds). -/
  startTime : Nat
  /-- Every artifact created by `startFile` so far, in creation order. -/
  files : List Artifact
  /-- The handler returned (connection closed, deferred cleanup done). -/
  stopped : Bool
deriving DecidableEq, Repr

/-- Apply `f` to the element at index `i`, if any. -/
def mapAt (i : Nat) (f : Artifact → Artifact) : List Artifact → List Artifact
  | [] => []
  | a :: as =>
    match i with
    | 0 => f a :: as
    | n + 1 => a :: mapAt n f as

/-- Short-end branch of the end-marker case: `file.Close()` and
`os.Remove(file.Name())`, both error-ignored, applied to the current file
if non-nil.  An already closed-and-removed file is unaffected. -/
def closeShort (files : List Artifact) : Option Nat → List Artifact
  | none => files
  | some i =>
    mapAt i (fun a => if a.fate = .open_ then { a with fate := .deleted } else a) files

/-- Finalization, `finishCurrentFile`: `UpdateWavHeader(file, dataSize)`, `file.Close()`,
`ResampleForWhisper(fileName)`, applied to the current file if non-nil.
On a stale (already closed and removed) handle the patch, close and
resample all fail with logged errors and the artifact is unaffected. -/
def finalize (files : List Artifact) (cur : Option Nat) (dataSize : Nat) : List Artifact :=
  match cur with
  | none => files
  | some i =>
    mapAt i (fun a =>
      if a.fate = .open_ then { a with fate := .finalized dataSize true } else a) files

/-- Ghost accounting: the chunk bytes written with `file.Write(chunkData)`. -/
def addReceived (files : List Artifact) (cur : Option Nat) (n : Nat) : List Artifact :=
  match cur with
  | none => files
  | some i => mapAt i (fun a => { a with received := a.received + n }) files

/-- The deferred `file.Close()` that runs when the handler returns:
closes the current handle without removing or renaming the file. -/
def deferClose (files : List Artifact) : Option Nat → List Artifact
  | none => files
  | some i =>
    mapAt i (fun a => if a.fate = .open_ then { a with fate := .closedOnly } else a) files

/-- The fate `handleIncompleteTransmission(file, startTime, clientID)`
assigns: delete when the duration is under one second, else close and
rename with the `.incomplete` suffix. -/
def incompleteFate (dur : Nat) : FileFate :=
  if dur < oneSecond then .deleted else .renamedIncomplete

/-- Go function `handleIncompleteTransmission` applied to the current file. -/
def incompletePolicy (files : List Artifact) (cur : Option Nat) (dur : Nat) :
    List Artifact :=
  match cur with
  | none => files
  | some i =>
    mapAt i (fun a => if a.fate = .open_ then { a with fate := incompleteFate dur } else a)
      files

/-- One loop iteration of `handleConnection` (lines 191–275 of
`server.go`), including the function's deferred cleanup on the paths that
return. -/
def step (s : ConnState) (p : Packet) : ConnState :=
  if s.stopped then s
  else
    match p with
    | .startMarker t =>
      -- isReceivingTransmission = true; transmissionBuffer reset;
      -- transmissionStartTime = now; startFile() creates a fresh artifact and
      -- overwrites `file` (a previously open handle is NOT closed first).
      { s with
        isReceiving := true
        buffer := []
        startTime := t
        file := some s.files.length
        files := s.files ++ [{ fate := .open_, received := 0 }] }
    | .endMarker t =>
      -- isReceivingTransmission = false; duration := time.Since(startTime).
      -- This branch does not test isReceivingTransmission first.
      if t - s.startTime < oneSecond then
        -- short: close + remove; note `file` is NOT reset to nil here.
        { s with isReceiving := false, files := closeShort s.files s.file }
      else
        { s with
          isReceiving := false
          file := none
          files := finalize s.files s.file (s.buffer.length % 2 ^ 32) }
    | .payload data _ =>
      -- chunk read only happens in the `else if isReceivingTransmission` branch;
      -- chunkSize is used as-is, with no upper bound check.
      if s.isReceiving then
        { s with buffer := s.buffer ++ data, files := addReceived s.files s.file data.length }
      else s
    | .payloadTruncated _ _ =>
      if s.isReceiving then
        -- "Failed to read chunk data": the handler just returns; only the
        -- deferred close runs — handleIncompleteTransmission is NOT called.
        { s with stopped := true, files := deferClose s.files s.file }
      else s
    | .disconnect t =>
      -- marker read failed: handleIncompleteTransmission iff recording with a file.
      if s.isReceiving ∧ s.file ≠ none then
        { s with stopped := true, files := incompletePolicy s.files s.file (t - s.startTime) }
      else
        { s with stopped := true, files := deferClose s.files s.file }

/-- Handler state at entry: empty buffer, not receiving, no file. -/
def initState : ConnState :=
  { buffer := [], isReceiving := false, file := none, startTime := 0
    files := [], stopped := false }

/-- Run the handler over a whole packet trace. -/
def run (ps : List Packet) : ConnState := ps.foldl step initState

theorem mapAt_length (i : Nat) (f : Artifact → Artifact) (l : List Artifact) :
    (mapAt i f l).length = l.length := by
  induction l generalizing i with
  | nil => cases i <;> rfl
  | cons a as ih =>
    cases i with
    | zero => rfl
    | succ n => simpa [mapAt] using ih n

theorem mapAt_get?_self (i : Nat) (f : Artifact → Artifact) (l : List Artifact) :
    (mapAt i f l).get? i = (l.get? i).map f := by
  induction l generalizing i with
  | nil => cases i <;> rfl
  | cons a as ih =>
    cases i with
    | zero => rfl
    | succ n => simpa [mapAt] using ih n

theorem mapAt_get?_ne (i j : Nat) (hij : j ≠ i) (f : Artifact → Artifact)
    (l : List Artifact) : (mapAt i f l).get? j = l.get? j := by
  induction l generalizing i j with
  | nil => cases i <;> rfl
  | cons a as ih =>
    cases i with
    | zero => cases j with
      | zero => exact absurd rfl hij
      | succ m => rfl
    | succ n =>
      cases j with
      | zero => rfl
      | succ m => simpa [mapAt] using ih n m (by omega)

/-- C1. On an unexpected EOF mid-payload while Recording, the handler does
NOT run the incomplete-utterance policy: it logs and returns, and only the
deferred `file.Close()` runs, leaving the artifact on disk under its original
name — neither renamed with the incomplete suffix (although the utterance here
lasted 2 s ≥ 1 s, where `handleIncompleteTransmission` would rename) nor
deleted (in the 0.5 s variant, where the policy would delete).  The policy is
applied only when the 4-byte prefix read fails (`Packet.disconnect`), shown
for contrast at the same durations. -/
theorem truncated_payload_skips_incomplete_policy :
    (run [.startMarker 0, .payloadTruncated 4 (2 * oneSecond)]).files.map (·.fate) =
      [.closedOnly] ∧
    (run [.startMarker 0, .payloadTruncated 4 (2 * oneSecond)]).stopped = true ∧
    (run [.startMarker 0, .payloadTruncated 4 (oneSecond / 2)]).files.map (·.fate) =
      [.closedOnly] ∧
    incompleteFate (2 * oneSecond) = .renamedIncomplete ∧
    incompleteFate (oneSecond / 2) = .deleted ∧
    (run [.startMarker 0, .disconnect (2 * oneSecond)]).files.map (·.fate) =
      [.renamedIncomplete] ∧
    (run [.startMarker 0, .disconnect (oneSecond / 2)]).files.map (·.fate) =
      [.deleted] := by
  refine ⟨rfl, rfl, rfl, ?_, ?_, ?_, ?_⟩ <;> decide

theorem step_payload_receiving (s : ConnState) (data : List Nat) (t : Nat)
    (hs : s.stopped = false) (hr : s.isReceiving = true) :
    step s (.payload data t) =
      { s with buffer := s.buffer ++ data,
               files := addReceived s.files s.file data.length } := by
  simp only [step, hs, hr, Bool.false_eq_true, if_false, if_true]

/-- C2 counterexample. A payload frame whose 4-byte prefix declares
`2 ^ 21` bytes (2 MiB, past any cap on the order of 1 MiB) does not close the
connection: `handleConnection` reads all `2 ^ 21` bytes and appends them to
the transmission buffer, and the handler keeps running. -/
theorem oversized_payload_accepted :
    (run [.startMarker 0, .payload (List.replicate (2 ^ 21) 0) 1]).stopped = false ∧
    (run [.startMarker 0, .payload (List.replicate (2 ^ 21) 0) 1]).buffer.length = 2 ^ 21 ∧
    2 ^ 20 < 2 ^ 21 := by
  have e : run [.startMarker 0, .payload (List.replicate (2 ^ 21) 0) 1] =
      step (run [.startMarker 0]) (.payload (List.replicate (2 ^ 21) 0) 1) := rfl
  rw [e, step_payload_receiving _ _ _ rfl rfl]
  have hb : (run [.startMarker 0]).buffer = [] := rfl
  refine ⟨rfl, ?_, by norm_num⟩
  show ((run [.startMarker 0]).buffer ++ List.replicate (2 ^ 21) (0 : Nat)).length = 2 ^ 21
  rw [hb, List.nil_append, List.length_replicate]

/-- C2 amended. The handler `handleConnection` enforces no maximum per-chunk size at
all: while Recording, a payload frame of any declared size `n` is read in
full (`io.ReadFull` of exactly `n` bytes), appended to the transmission
buffer, and the connection stays open; no prefix value causes the server to
close the connection. -/
theorem payload_frames_uncapped (s : ConnState) (data : List Nat) (t : Nat)
    (hs : s.stopped = false) (hr : s.isReceiving = true) :
    (step s (.payload data t)).stopped = false ∧
    (step s (.payload data t)).buffer = s.buffer ++ data := by
  rw [step_payload_receiving s data t hs hr]
  exact ⟨hs, rfl⟩

/-- Witness for `payload_frames_uncapped`. -/
theorem payload_frames_uncapped_witness :
    (step (run [.startMarker 0]) (.payload [7, 7] 5)).stopped = false ∧
    (step (run [.startMarker 0]) (.payload [7, 7] 5)).buffer =
      (run [.startMarker 0]).buffer ++ [7, 7] :=
  payload_frames_uncapped (run [.startMarker 0]) [7, 7] 5 rfl rfl

/-- C3. When an end marker arrives for a running utterance (current file
open), the handler computes the wall-clock duration `t - startTime`; strictly
under one second the artifact is closed and deleted (no header patch, no
resample), while at one second or more — including exactly 1.000 s — the
header is patched with the final byte count `uint32(len(transmissionBuffer))`,
the file is closed, and `ResampleForWhisper` is invoked on the finalized
path. -/
theorem utterance_end_policy (s : ConnState) (i : Nat) (a : Artifact) (t : Nat)
    (hs : s.stopped = false) (_hr : s.isReceiving = true)
    (hf : s.file = some i) (ha : s.files.get? i = some a) (hfate : a.fate = .open_) :
    (t - s.startTime < oneSecond →
      (step s (.endMarker t)).files.get? i = some { a with fate := .deleted }) ∧
    (oneSecond ≤ t - s.startTime →
      (step s (.endMarker t)).files.get? i =
        some { a with fate := .finalized (s.buffer.length % 2 ^ 32) true }) := by
  constructor
  · intro h
    have hstep : step s (.endMarker t) =
        { s with isReceiving := false, files := closeShort s.files s.file } := by
      simp [step, hs, h]
    rw [hstep]
    show (closeShort s.files s.file).get? i = _
    rw [hf]
    show (mapAt i _ s.files).get? i = _
    rw [mapAt_get?_self, ha]
    simp [hfate]
  · intro h
    have hstep : step s (.endMarker t) =
        { s with isReceiving := false, file := none,
                 files := finalize s.files s.file (s.buffer.length % 2 ^ 32) } := by
      simp [step, hs, Nat.not_lt.mpr h]
    rw [hstep]
    show (finalize s.files s.file (s.buffer.length % 2 ^ 32)).get? i = _
    rw [hf]
    show (mapAt i _ s.files).get? i = _
    rw [mapAt_get?_self, ha]
    simp [hfate]

/-- Witness for `utterance_end_policy`: an utterance of exactly 1.000 s with
4 payload bytes is finalized with data size 4 and resampled. -/
theorem utterance_end_policy_witness :
    (step (run [.startMarker 0, .payload [1, 2, 3, 4] 5]) (.endMarker oneSecond)).files.get? 0 =
      some { fate := .finalized 4 true, received := 4 } := by
  have h := (utterance_end_policy (run [.startMarker 0, .payload [1, 2, 3, 4] 5]) 0
    ⟨.open_, 4⟩ oneSecond rfl rfl rfl rfl rfl).2 (by decide)
  simpa [run, step, initState] using h


/-! ### C5: finalized data size equals bytes received -/

theorem closeShort_some (files : List Artifact) (i : Nat) :
    closeShort files (some i) =
      mapAt i (fun a => if a.fate = .open_ then { a with fate := .deleted } else a)
        files := rfl

theorem finalize_some (files : List Artifact) (i : Nat) (sz : Nat) :
    finalize files (some i) sz =
      mapAt i (fun a => if a.fate = .open_ then { a with fate := .finalized sz true } else a)
        files := rfl

theorem addReceived_some (files : List Artifact) (i : Nat) (n : Nat) :
    addReceived files (some i) n =
      mapAt i (fun a => { a with received := a.received + n }) files := rfl

theorem deferClose_some (files : List Artifact) (i : Nat) :
    deferClose files (some i) =
      mapAt i (fun a => if a.fate = .open_ then { a with fate := .closedOnly } else a)
        files := rfl

theorem incompletePolicy_some (files : List Artifact) (i : Nat) (dur : Nat) :
    incompletePolicy files (some i) dur =
      mapAt i (fun a => if a.fate = .open_ then { a with fate := incompleteFate dur } else a)
        files := rfl

/-- The four cleanup helpers never produce a `finalized` artifact out of a
non-open one, never change `received`, and map an open artifact to the stated
fate; this packages the per-index reasoning all invariant proofs share. -/
theorem mapAt_fate_cases (g : Artifact → Artifact)
    (files : List Artifact) (i j : Nat) (a : Artifact)
    (hja : (mapAt i g files).get? j = some a) :
    (j ≠ i ∧ files.get? j = some a) ∨
    (j = i ∧ ∃ a0, files.get? j = some a0 ∧ a = g a0) := by
  by_cases hji : j = i
  · subst hji
    rw [mapAt_get?_self] at hja
    cases ha0 : files.get? j with
    | none => rw [ha0] at hja; cases hja
    | some a0 =>
      rw [ha0] at hja
      injection hja with hja
      exact Or.inr ⟨rfl, a0, rfl, hja.symm⟩
  · rw [mapAt_get?_ne i j hji] at hja
    exact Or.inl ⟨hji, hja⟩

/-- Induction invariant for C5: the handler's transmission buffer mirrors the
ghost byte count of the current open artifact, and every finalized artifact
was patched with its own byte count truncated to `uint32`. -/
structure Inv5 (s : ConnState) : Prop where
  cur_open_recv : s.stopped = false → ∀ i a, s.file = some i →
    s.files.get? i = some a → a.fate = .open_ → s.isReceiving = true
  recv_sync : s.stopped = false → s.isReceiving = true →
    ∃ i a, s.file = some i ∧ s.files.get? i = some a ∧ a.fate = .open_ ∧
      s.buffer.length = a.received
  fin_size : ∀ j a, s.files.get? j = some a → ∀ sz b, a.fate = .finalized sz b →
    sz = a.received % 2 ^ 32

theorem inv5_init : Inv5 initState := by
  refine ⟨?_, ?_, ?_⟩
  · intro _ i a hf _ _
    exact absurd hf (by simp [initState])
  · intro _ hr
    exact absurd hr (by simp [initState])
  · intro j a hja _ _ _
    rw [show initState.files = [] from rfl] at hja
    cases j <;> cases hja

theorem inv5_step (s : ConnState) (p : Packet) (h : Inv5 s) : Inv5 (step s p) := by
  by_cases hstop : s.stopped = true
  · have e : step s p = s := by simp [step, hstop]
    rw [e]; exact h
  have hs : s.stopped = false := by simpa using hstop
  cases p with
  | startMarker t =>
    have e : step s (.startMarker t) =
        { s with isReceiving := true, buffer := [], startTime := t,
                 file := some s.files.length,
                 files := s.files ++ [{ fate := .open_, received := 0 }] } := by
      simp [step, hs]
    rw [e]
    refine ⟨?_, ?_, ?_⟩
    · intro _ _ _ _ _ _
      rfl
    · intro _ _
      exact ⟨s.files.length, ⟨.open_, 0⟩, rfl, List.get?_concat_length s.files _, rfl, rfl⟩
    · intro j a hja sz b hfb
      replace hja : (s.files ++ [(⟨.open_, 0⟩ : Artifact)]).get? j = some a := hja
      rcases Nat.lt_trichotomy j s.files.length with hj | hj | hj
      · rw [List.get?_append hj] at hja
        exact h.fin_size j a hja sz b hfb
      · subst hj
        rw [List.get?_concat_length] at hja
        injection hja with hja
        rw [← hja] at hfb
        cases hfb
      · rw [List.get?_eq_none.mpr (by simp; omega)] at hja
        cases hja
  | endMarker t =>
    by_cases hd : t - s.startTime < oneSecond
    · have e : step s (.endMarker t) =
          { s with isReceiving := false, files := closeShort s.files s.file } := by
        simp [step, hs, hd]
      rw [e]
      refine ⟨?_, ?_, ?_⟩
      · intro _ i a hf hja hopen
        exfalso
        replace hf : s.file = some i := hf
        replace hja : (closeShort s.files s.file).get? i = some a := hja
        rw [hf, closeShort_some] at hja
        rcases mapAt_fate_cases _ s.files i i a hja with ⟨hne, _⟩ | ⟨_, a0, ha0, hga⟩
        · exact hne rfl
        · by_cases hf0 : a0.fate = .open_
          · rw [hga] at hopen
            simp [hf0] at hopen
          · rw [hga] at hopen
            simp [hf0] at hopen
      · intro _ hr
        exact Bool.noConfusion hr
      · intro j a hja sz b hfb
        replace hja : (closeShort s.files s.file).get? j = some a := hja
        cases hcur : s.file with
        | none =>
          rw [hcur] at hja
          exact h.fin_size j a hja sz b hfb
        | some i0 =>
          rw [hcur, closeShort_some] at hja
          rcases mapAt_fate_cases _ s.files i0 j a hja with ⟨_, ha⟩ | ⟨_, a0, ha0, hga⟩
          · exact h.fin_size j a ha sz b hfb
          · by_cases hf0 : a0.fate = .open_
            · rw [hga] at hfb
              simp [hf0] at hfb
            · rw [hga, if_neg hf0] at hfb ⊢
              exact h.fin_size j a0 ha0 sz b hfb
    · have e : step s (.endMarker t) =
          { s with isReceiving := false, file := none,
                   files := finalize s.files s.file (s.buffer.length % 2 ^ 32) } := by
        simp [step, hs, hd]
      rw [e]
      refine ⟨?_, ?_, ?_⟩
      · intro _ i a hf _ _
        exact Option.noConfusion hf
      · intro _ hr
        exact Bool.noConfusion hr
      · intro j a hja sz b hfb
        replace hja : (finalize s.files s.file (s.buffer.length % 2 ^ 32)).get? j = some a :=
          hja
        cases hcur : s.file with
        | none =>
          rw [hcur] at hja
          exact h.fin_size j a hja sz b hfb
        | some i0 =>
          rw [hcur, finalize_some] at hja
          rcases mapAt_fate_cases _ s.files i0 j a hja with ⟨_, ha⟩ | ⟨hji, a0, ha0, hga⟩
          · exact h.fin_size j a ha sz b hfb
          · subst hji
            by_cases hf0 : a0.fate = .open_
            · have hrecv := h.cur_open_recv hs j a0 hcur ha0 hf0
              obtain ⟨i1, a1, hf1, ha1, _, hlen1⟩ := h.recv_sync hs hrecv
              rw [hcur] at hf1
              injection hf1 with hf1
              rw [← hf1, ha0] at ha1
              injection ha1 with ha1
              rw [hga, if_pos hf0] at hfb ⊢
              replace hfb :
                  FileFate.finalized (s.buffer.length % 2 ^ 32) true = .finalized sz b := hfb
              injection hfb with hfb1 hfb2
              show sz = a0.received % 2 ^ 32
              rw [← hfb1, hlen1, ← ha1]
            · rw [hga, if_neg hf0] at hfb ⊢
              exact h.fin_size j a0 ha0 sz b hfb
  | payload data t =>
    by_cases hr : s.isReceiving = true
    · rw [step_payload_receiving s data t hs hr]
      obtain ⟨i0, a0, hcur, ha0, hopen0, hlen0⟩ := h.recv_sync hs hr
      refine ⟨?_, ?_, ?_⟩
      · intro _ _ _ _ _ _
        exact hr
      · intro _ _
        refine ⟨i0, { a0 with received := a0.received + data.length }, hcur, ?_, hopen0, ?_⟩
        · show (addReceived s.files s.file data.length).get? i0 =
            some { a0 with received := a0.received + data.length }
          rw [hcur, addReceived_some, mapAt_get?_self, ha0]
          rfl
        · show (s.buffer ++ data).length = a0.received + data.length
          rw [List.length_append, hlen0]
      · intro j a hja sz b hfb
        replace hja : (addReceived s.files s.file data.length).get? j = some a := hja
        rw [hcur, addReceived_some] at hja
        by_cases hji : j = i0
        · subst hji
          rw [mapAt_get?_self, ha0] at hja
          injection hja with hja
          rw [← hja] at hfb
          replace hfb : a0.fate = .finalized sz b := hfb
          rw [hopen0] at hfb
          cases hfb
        · rw [mapAt_get?_ne i0 j hji] at hja
          exact h.fin_size j a hja sz b hfb
    · have e : step s (.payload data t) = s := by
        simp [step, hs, hr]
      rw [e]; exact h
  | payloadTruncated n t =>
    by_cases hr : s.isReceiving = true
    · have e : step s (.payloadTruncated n t) =
          { s with stopped := true, files := deferClose s.files s.file } := by
        simp [step, hs, hr]
      rw [e]
      refine ⟨?_, ?_, ?_⟩
      · intro hx
        exact Bool.noConfusion hx
      · intro hx
        exact Bool.noConfusion hx
      · intro j a hja sz b hfb
        replace hja : (deferClose s.files s.file).get? j = some a := hja
        cases hcur : s.file with
        | none =>
          rw [hcur] at hja
          exact h.fin_size j a hja sz b hfb
        | some i0 =>
          rw [hcur, deferClose_some] at hja
          rcases mapAt_fate_cases _ s.files i0 j a hja with ⟨_, ha⟩ | ⟨_, a0, ha0, hga⟩
          · exact h.fin_size j a ha sz b hfb
          · by_cases hf0 : a0.fate = .open_
            · rw [hga] at hfb
              simp [hf0] at hfb
            · rw [hga, if_neg hf0] at hfb ⊢
              exact h.fin_size j a0 ha0 sz b hfb
    · have e : step s (.payloadTruncated n t) = s := by
        simp [step, hs, hr]
      rw [e]; exact h
  | disconnect t =>
    by_cases hc : s.isReceiving = true ∧ s.file ≠ none
    · have e : step s (.disconnect t) =
          { s with stopped := true,
                   files := incompletePolicy s.files s.file (t - s.startTime) } := by
        simp [step, hs, hc]
      rw [e]
      refine ⟨?_, ?_, ?_⟩
      · intro hx
        exact Bool.noConfusion hx
      · intro hx
        exact Bool.noConfusion hx
      · intro j a hja sz b hfb
        replace hja : (incompletePolicy s.files s.file (t - s.startTime)).get? j = some a :=
          hja
        cases hcur : s.file with
        | none =>
          rw [hcur] at hja
          exact h.fin_size j a hja sz b hfb
        | some i0 =>
          rw [hcur, incompletePolicy_some] at hja
          rcases mapAt_fate_cases _ s.files i0 j a hja with ⟨_, ha⟩ | ⟨_, a0, ha0, hga⟩
          · exact h.fin_size j a ha sz b hfb
          · by_cases hf0 : a0.fate = .open_
            · rw [hga] at hfb
              replace hfb : (if a0.fate = .open_ then { a0 with fate := incompleteFate (t - s.startTime) } else a0).fate = .finalized sz b := hfb
              rw [if_pos hf0] at hfb
              replace hfb : incompleteFate (t - s.startTime) = .finalized sz b := hfb
              unfold incompleteFate at hfb
              split at hfb <;> cases hfb
            · rw [hga, if_neg hf0] at hfb ⊢
              exact h.fin_size j a0 ha0 sz b hfb
    · have e : step s (.disconnect t) =
          { s with stopped := true, files := deferClose s.files s.file } := by
        simp [step, hs, hc]
      rw [e]
      refine ⟨?_, ?_, ?_⟩
      · intro hx
        exact Bool.noConfusion hx
      · intro hx
        exact Bool.noConfusion hx
      · intro j a hja sz b hfb
        replace hja : (deferClose s.files s.file).get? j = some a := hja
        cases hcur : s.file with
        | none =>
          rw [hcur] at hja
          exact h.fin_size j a hja sz b hfb
        | some i0 =>
          rw [hcur, deferClose_some] at hja
          rcases mapAt_fate_cases _ s.files i0 j a hja with ⟨_, ha⟩ | ⟨_, a0, ha0, hga⟩
          · exact h.fin_size j a ha sz b hfb
          · by_cases hf0 : a0.fate = .open_
            · rw [hga] at hfb
              simp [hf0] at hfb
            · rw [hga, if_neg hf0] at hfb ⊢
              exact h.fin_size j a0 ha0 sz b hfb

theorem inv5_run (ps : List Packet) : Inv5 (run ps) := by
  suffices hgen : ∀ (l : List Packet) (s : ConnState), Inv5 s → Inv5 (l.foldl step s) from
    hgen ps initState inv5_init
  intro l
  induction l with
  | nil => intro s h; exact h
  | cons p l ih => intro s h; exact ih _ (inv5_step s p h)


/-- C5. For every artifact an end marker finalized (header patched and
resample invoked), the data size patched into the descriptor equals the total
number of payload-frame bytes received between that utterance's start marker
and its end marker (the artifact's ghost `received` count), whenever that
total fits the 32-bit descriptor field. -/
theorem finalized_size_eq_bytes_received (ps : List Packet) (j : Nat) (a : Artifact)
    (hja : (run ps).files.get? j = some a) (sz : Nat) (b : Bool)
    (hfate : a.fate = .finalized sz b) (hlt : a.received < 2 ^ 32) :
    sz = a.received := by
  have hinv := (inv5_run ps).fin_size j a hja sz b hfate
  omega

/-- Witness for `finalized_size_eq_bytes_received`: one utterance with a
4-byte payload frame, finalized after 2 s, is patched with data size 4. -/
theorem finalized_size_eq_bytes_received_witness :
    (run [.startMarker 0, .payload [1, 2, 3, 4] 5, .endMarker (2 * oneSecond)]).files.get? 0 =
      some ⟨.finalized 4 true, 4⟩ ∧ (4 : Nat) = 4 :=
  ⟨rfl, finalized_size_eq_bytes_received
    [.startMarker 0, .payload [1, 2, 3, 4] 5, .endMarker (2 * oneSecond)] 0
    ⟨.finalized 4 true, 4⟩ rfl 4 true rfl (by norm_num)⟩

/-! ### C6: at most one utterance in progress per connection -/

/-- The recording flag as the wire protocol tracks it: a start marker sets
it, an end marker clears it. -/
def nextFlag (r : Bool) : Packet → Bool
  | .startMarker _ => true
  | .endMarker _ => false
  | .payload _ _ => r
  | .payloadTruncated _ _ => r
  | .disconnect _ => r

/-- The per-packet well-pairedness condition: a start marker may only
arrive while the recording flag is clear. -/
def startGuard (r : Bool) : Packet → Bool
  | .startMarker _ => !r
  | _ => true

/-- A trace is well-paired when every start marker arrives while no
utterance is in progress (`r` is the recording flag on entry). -/
def startsOnlyWhenIdle (r : Bool) : List Packet → Bool
  | [] => true
  | p :: ps => startGuard r p && startsOnlyWhenIdle (nextFlag r p) ps

/-- Induction invariant for C6 over well-paired traces: the wire-level
recording flag matches the handler's, any artifact whose handle is still
open is the handler's current file, the current file is the most recently
created artifact, and outside an utterance no handle is open. -/
structure Inv6 (r : Bool) (s : ConnState) : Prop where
  sync : s.stopped = false → r = s.isReceiving
  open_cur : ∀ j a, s.files.get? j = some a → a.fate = .open_ → s.file = some j
  cur_last : ∀ i, s.file = some i → i + 1 = s.files.length
  idle_clean : s.stopped = false → s.isReceiving = false →
    ∀ j a, s.files.get? j = some a → a.fate ≠ .open_

theorem inv6_init : Inv6 false initState := by
  refine ⟨fun _ => rfl, ?_, ?_, ?_⟩
  · intro j a hja _
    rw [show initState.files = [] from rfl] at hja
    cases j <;> cases hja
  · intro i hi
    exact absurd hi (by simp [initState])
  · intro _ _ j a hja _
    rw [show initState.files = [] from rfl] at hja
    cases j <;> cases hja

/-- After any of the handler's cleanup actions (`closeShort`, `finalize`,
`deferClose`, `incompletePolicy`) runs on the current file, no artifact
handle remains open, provided every open artifact was the current file. -/
theorem cleanup_no_open (s : ConnState)
    (hoc : ∀ j a, s.files.get? j = some a → a.fate = .open_ → s.file = some j)
    (g : Artifact → Artifact) (hg : ∀ a0, (g a0).fate ≠ .open_)
    (files' : List Artifact)
    (hfn : s.file = none → files' = s.files)
    (hfe : ∀ i, s.file = some i → files' = mapAt i g s.files) :
    ∀ j a, files'.get? j = some a → a.fate ≠ .open_ := by
  intro j a hja hopen
  cases hcur : s.file with
  | none =>
    rw [hfn hcur] at hja
    have h2 := hoc j a hja hopen
    rw [hcur] at h2
    cases h2
  | some i0 =>
    rw [hfe i0 hcur] at hja
    rcases mapAt_fate_cases g s.files i0 j a hja with ⟨hji, ha⟩ | ⟨_, a0, _, hga0⟩
    · have h2 := hoc j a ha hopen
      rw [hcur] at h2
      injection h2 with h2
      exact hji h2.symm
    · rw [hga0] at hopen
      exact hg a0 hopen

theorem inv6_step (r : Bool) (s : ConnState) (p : Packet) (h : Inv6 r s)
    (hc : ∀ t, p = .startMarker t → r = false) :
    Inv6 (nextFlag r p) (step s p) := by
  by_cases hstop : s.stopped = true
  · have e : step s p = s := by simp [step, hstop]
    rw [e]
    refine ⟨?_, h.open_cur, h.cur_last, ?_⟩
    · intro hx
      rw [hstop] at hx
      cases hx
    · intro hx
      rw [hstop] at hx
      cases hx
  have hs : s.stopped = false := by simpa using hstop
  cases p with
  | startMarker t =>
    have hrf : r = false := hc t rfl
    have hidle : s.isReceiving = false := by rw [← h.sync hs, hrf]
    have hclean := h.idle_clean hs hidle
    have e : step s (.startMarker t) =
        { s with isReceiving := true, buffer := [], startTime := t,
                 file := some s.files.length,
                 files := s.files ++ [{ fate := .open_, received := 0 }] } := by
      simp [step, hs]
    rw [e]
    refine ⟨fun _ => rfl, ?_, ?_, ?_⟩
    · intro j a hja hopen
      replace hja : (s.files ++ [(⟨.open_, 0⟩ : Artifact)]).get? j = some a := hja
      show some s.files.length = some j
      rcases Nat.lt_trichotomy j s.files.length with hj | hj | hj
      · rw [List.get?_append hj] at hja
        exact absurd hopen (hclean j a hja)
      · rw [hj]
      · rw [List.get?_eq_none.mpr (by simp; omega)] at hja
        cases hja
    · intro i hi
      replace hi : some s.files.length = some i := hi
      injection hi with hi
      show i + 1 = (s.files ++ [(⟨.open_, 0⟩ : Artifact)]).length
      rw [← hi, List.length_append]
      rfl
    · intro _ hx
      exact Bool.noConfusion hx
  | endMarker t =>
    by_cases hd : t - s.startTime < oneSecond
    · have e : step s (.endMarker t) =
          { s with isReceiving := false, files := closeShort s.files s.file } := by
        simp [step, hs, hd]
      rw [e]
      have hno : ∀ j a, (closeShort s.files s.file).get? j = some a → a.fate ≠ .open_ :=
        cleanup_no_open s h.open_cur
          (fun a => if a.fate = .open_ then { a with fate := .deleted } else a)
          (fun a0 => by by_cases hf0 : a0.fate = .open_ <;> simp [hf0])
          (closeShort s.files s.file) (fun hn => by rw [hn]; rfl) (fun i hi => by rw [hi]; rfl)
      refine ⟨fun _ => rfl, ?_, ?_, fun _ _ => hno⟩
      · intro j a hja hopen
        exact absurd hopen (hno j a hja)
      · intro i hi
        replace hi : s.file = some i := hi
        show i + 1 = (closeShort s.files s.file).length
        rw [hi, closeShort_some, mapAt_length]
        exact h.cur_last i hi
    · have e : step s (.endMarker t) =
          { s with isReceiving := false, file := none,
                   files := finalize s.files s.file (s.buffer.length % 2 ^ 32) } := by
        simp [step, hs, hd]
      rw [e]
      have hno : ∀ j a,
          (finalize s.files s.file (s.buffer.length % 2 ^ 32)).get? j = some a →
            a.fate ≠ .open_ :=
        cleanup_no_open s h.open_cur
          (fun a => if a.fate = .open_ then
            { a with fate := .finalized (s.buffer.length % 2 ^ 32) true } else a)
          (fun a0 => by by_cases hf0 : a0.fate = .open_ <;> simp [hf0])
          (finalize s.files s.file (s.buffer.length % 2 ^ 32))
          (fun hn => by rw [hn]; rfl) (fun i hi => by rw [hi]; rfl)
      refine ⟨fun _ => rfl, ?_, ?_, fun _ _ => hno⟩
      · intro j a hja hopen
        exact absurd hopen (hno j a hja)
      · intro i hi
        exact Option.noConfusion hi
  | payload data t =>
    by_cases hr2 : s.isReceiving = true
    · rw [step_payload_receiving s data t hs hr2]
      refine ⟨?_, ?_, ?_, ?_⟩
      · intro _
        exact h.sync hs
      · intro j a hja hopen
        replace hja : (addReceived s.files s.file data.length).get? j = some a := hja
        show s.file = some j
        cases hcur : s.file with
        | none =>
          rw [hcur] at hja
          replace hja : s.files.get? j = some a := hja
          have h2 := h.open_cur j a hja hopen
          rw [hcur] at h2
          exact h2
        | some i0 =>
          rw [hcur, addReceived_some] at hja
          rcases mapAt_fate_cases _ s.files i0 j a hja with ⟨_, ha⟩ | ⟨hji, a0, ha0, hga0⟩
          · have h2 := h.open_cur j a ha hopen
            rw [hcur] at h2
            exact h2
          · subst hji
            rfl
      · intro i hi
        replace hi : s.file = some i := hi
        show i + 1 = (addReceived s.files s.file data.length).length
        cases hcur : s.file with
        | none => rw [hcur] at hi; cases hi
        | some i0 =>
          rw [hcur] at hi
          injection hi with hi
          subst hi
          show _ + 1 = (addReceived s.files (some i0) data.length).length
          rw [addReceived_some, mapAt_length]
          exact h.cur_last _ hcur
      · intro _ hx
        replace hx : s.isReceiving = false := hx
        rw [hr2] at hx
        cases hx
    · have e : step s (.payload data t) = s := by
        simp [step, hs, hr2]
      rw [e]
      exact ⟨h.sync, h.open_cur, h.cur_last, h.idle_clean⟩
  | payloadTruncated n t =>
    by_cases hr2 : s.isReceiving = true
    · have e : step s (.payloadTruncated n t) =
          { s with stopped := true, files := deferClose s.files s.file } := by
        simp [step, hs, hr2]
      rw [e]
      have hno : ∀ j a, (deferClose s.files s.file).get? j = some a → a.fate ≠ .open_ :=
        cleanup_no_open s h.open_cur
          (fun a => if a.fate = .open_ then { a with fate := .closedOnly } else a)
          (fun a0 => by by_cases hf0 : a0.fate = .open_ <;> simp [hf0])
          (deferClose s.files s.file) (fun hn => by rw [hn]; rfl) (fun i hi => by rw [hi]; rfl)
      refine ⟨?_, ?_, ?_, ?_⟩
      · intro hx
        exact Bool.noConfusion hx
      · intro j a hja hopen
        exact absurd hopen (hno j a hja)
      · intro i hi
        replace hi : s.file = some i := hi
        show i + 1 = (deferClose s.files s.file).length
        rw [hi, deferClose_some, mapAt_length]
        exact h.cur_last i hi
      · intro hx
        exact Bool.noConfusion hx
    · have e : step s (.payloadTruncated n t) = s := by
        simp [step, hs, hr2]
      rw [e]
      exact ⟨h.sync, h.open_cur, h.cur_last, h.idle_clean⟩
  | disconnect t =>
    by_cases hcc : s.isReceiving = true ∧ s.file ≠ none
    · have e : step s (.disconnect t) =
          { s with stopped := true,
                   files := incompletePolicy s.files s.file (t - s.startTime) } := by
        simp [step, hs, hcc]
      rw [e]
      have hno : ∀ j a,
          (incompletePolicy s.files s.file (t - s.startTime)).get? j = some a →
            a.fate ≠ .open_ :=
        cleanup_no_open s h.open_cur
          (fun a => if a.fate = .open_ then
            { a with fate := incompleteFate (t - s.startTime) } else a)
          (fun a0 => by
            by_cases hf0 : a0.fate = .open_
            · show ¬(if a0.fate = .open_ then
                { a0 with fate := incompleteFate (t - s.startTime) } else a0).fate = .open_
              rw [if_pos hf0]
              show incompleteFate (t - s.startTime) ≠ .open_
              unfold incompleteFate
              split <;> simp
            · simp [hf0])
          (incompletePolicy s.files s.file (t - s.startTime))
          (fun hn => by rw [hn]; rfl) (fun i hi => by rw [hi]; rfl)
      refine ⟨?_, ?_, ?_, ?_⟩
      · intro hx
        exact Bool.noConfusion hx
      · intro j a hja hopen
        exact absurd hopen (hno j a hja)
      · intro i hi
        replace hi : s.file = some i := hi
        show i + 1 = (incompletePolicy s.files s.file (t - s.startTime)).length
        rw [hi, incompletePolicy_some, mapAt_length]
        exact h.cur_last i hi
      · intro hx
        exact Bool.noConfusion hx
    · have e : step s (.disconnect t) =
          { s with stopped := true, files := deferClose s.files s.file } := by
        simp [step, hs, hcc]
      rw [e]
      have hno : ∀ j a, (deferClose s.files s.file).get? j = some a → a.fate ≠ .open_ :=
        cleanup_no_open s h.open_cur
          (fun a => if a.fate = .open_ then { a with fate := .closedOnly } else a)
          (fun a0 => by by_cases hf0 : a0.fate = .open_ <;> simp [hf0])
          (deferClose s.files s.file) (fun hn => by rw [hn]; rfl) (fun i hi => by rw [hi]; rfl)
      refine ⟨?_, ?_, ?_, ?_⟩
      · intro hx
        exact Bool.noConfusion hx
      · intro j a hja hopen
        exact absurd hopen (hno j a hja)
      · intro i hi
        replace hi : s.file = some i := hi
        show i + 1 = (deferClose s.files s.file).length
        rw [hi, deferClose_some, mapAt_length]
        exact h.cur_last i hi
      · intro hx
        exact Bool.noConfusion hx

theorem inv6_run (ps : List Packet) (hwf : startsOnlyWhenIdle false ps = true) :
    ∃ r, Inv6 r (run ps) := by
  suffices hgen : ∀ (l : List Packet) (r : Bool) (s : ConnState),
      startsOnlyWhenIdle r l = true → Inv6 r s → ∃ r2, Inv6 r2 (l.foldl step s) from
    hgen ps false initState hwf inv6_init
  intro l
  induction l with
  | nil =>
    intro r s _ h6
    exact ⟨r, h6⟩
  | cons p l ih =>
    intro r s hwf h6
    rw [startsOnlyWhenIdle, Bool.and_eq_true] at hwf
    refine ih (nextFlag r p) (step s p) hwf.2 (inv6_step r s p h6 ?_)
    intro t hp
    subst hp
    simpa [startGuard] using hwf.1

/-- C6 counterexample. Two consecutive start markers: when the second
start marker opens a new artifact, the previously opened artifact has been
neither finalized, deleted, nor renamed — its handle is still open
(`startFile` overwrites `file` without closing the old handle). -/
theorem double_start_leaks_previous_handle :
    (run [.startMarker 0, .startMarker oneSecond]).files.map (·.fate) =
      [.open_, .open_] ∧
    (run [.startMarker 0, .startMarker oneSecond]).file = some 1 := ⟨rfl, rfl⟩

/-- C6 amended. Provided the peer never sends a start marker while an
utterance is already in progress (well-paired traces), at most one utterance
is in progress per connection at any time: any artifact whose handle is
still open is the handler's current file and the most recently opened one,
so every artifact opened before it has been finalized, deleted, renamed, or
closed, and its handle released. -/
theorem at_most_one_open_artifact (ps : List Packet)
    (hwf : startsOnlyWhenIdle false ps = true) (j : Nat) (a : Artifact)
    (hja : (run ps).files.get? j = some a) (hopen : a.fate = .open_) :
    (run ps).file = some j ∧ j + 1 = (run ps).files.length := by
  obtain ⟨r, h6⟩ := inv6_run ps hwf
  have hcur := h6.open_cur j a hja hopen
  exact ⟨hcur, h6.cur_last j hcur⟩

/-- Witness for `at_most_one_open_artifact`: after a finished utterance and a
fresh start marker, the only open artifact is the current, last one. -/
theorem at_most_one_open_artifact_witness :
    startsOnlyWhenIdle false
      [.startMarker 0, .endMarker (2 * oneSecond), .startMarker (3 * oneSecond)] = true ∧
    ((run [.startMarker 0, .endMarker (2 * oneSecond), .startMarker (3 * oneSecond)]).file =
        some 1 ∧
      1 + 1 =
        (run [.startMarker 0, .endMarker (2 * oneSecond),
          .startMarker (3 * oneSecond)]).files.length) :=
  ⟨rfl, at_most_one_open_artifact
    [.startMarker 0, .endMarker (2 * oneSecond), .startMarker (3 * oneSecond)]
    rfl 1 ⟨.open_, 0⟩ rfl rfl⟩

/-! ## Directory watcher (`scribe` package, `watcher.go`)

`handleFSEvent` ignores `.tmp`-suffixed names and non-create events, takes
the path of the event relative to the recordings root, splits it on the
path separator, drops paths outside today's directory, treats
`<today>/<uuid>` directories as new clients, and enqueues
`<today>/<uuid>/<leaf>` as a transcription job when the leaf ends in
`.wav` and contains `_whisper`; the job queue (`make(chan
TranscriptionJob, 100)`) is offered the job non-blockingly, failing with
"job queue is full" when it is at capacity.

Strings are modelled as `List Char` (these paths are ASCII, so Go's
byte-wise operations agree with the character-wise model); an event is
modelled by the components of its root-relative path. -/

/-- Go's `strings.Contains(s, pat)`. -/
def containsSub (s pat : List Char) : Bool :=
  s.tails.any (fun t => pat.isPrefixOf t)

/-- Join path components with the separator, as the absolute
`event.Name` contains them below the recordings root. -/
def joinPath : List (List Char) → List Char
  | [] => []
  | [p] => p
  | p :: ps => p ++ '/' :: joinPath ps

/-- Modelled from the spec: the endpoint-id parser (`uuid.Parse` of the
`github.com/google/uuid` dependency, not part of this repository) accepts
the canonical hyphenated 128-bit form — "The endpoint-id string is the
canonical hyphenated 128-bit form".  The watcher embedding is
parameterised over the id-validity predicate; this checker instantiates
it for concrete witnesses. -/
def canonicalUUID (s : List Char) : Bool :=
  s.length == 36 &&
  (List.range 36).all (fun i =>
    if i = 8 || i = 13 || i = 18 || i = 23 then s.getD i ' ' == '-'
    else (('0' ≤ s.getD i ' ' && s.getD i ' ' ≤ '9') ||
      ('a' ≤ s.getD i ' ' && s.getD i ' ' ≤ 'f') ||
      ('A' ≤ s.getD i ' ' && s.getD i ' ' ≤ 'F')))

/-- A filesystem event as the watcher sees it: the components of the
event path relative to `RecordingsDir`, whether `event.Op` is
`fsnotify.Create`, and whether `os.Stat` reports a directory. -/
structure WatchEvent where
  rel : List (List Char)
  create : Bool
  isDir : Bool

/-- Capacity of the watcher-to-workers job queue:
`queue: make(chan TranscriptionJob, 100)` in `scribe.New`. -/
def jobQueueCapacity : Nat := 100

/-- What `handleFSEvent` did with an event. -/
inductive WatchAction
  /-- Returned without touching the job queue. -/
  | ignored
  /-- Handled by `handleNewClient`: watch the new client directory, materialize an
  empty transcript log. -/
  | watchedNewClient (clientID : List Char)
  /-- Call to `handleNewAudioFile` succeeded: a job was enqueued. -/
  | enqueued (clientID : List Char) (path : List (List Char))
  /-- Call to `handleNewAudioFile` hit a full queue: the job was dropped with
  "job queue is full". -/
  | queueFull
deriving DecidableEq, Repr

/-- Go function `handleFSEvent` (lines 82-144 of the watcher file).  `today` is
`getCurrentDateDir()`; `uuidOK` abstracts `uuid.Parse` succeeding;
`queueLen` is the current number of queued jobs.  The `watcher.Add` calls
for new directories have no effect on the job queue and are not modelled
beyond `watchedNewClient`. -/
def handleFSEvent (today : List Char) (uuidOK : List Char → Bool) (queueLen : Nat)
    (e : WatchEvent) : WatchAction :=
  -- Skip temporary files and non-create events
  if (".tmp".toList).isSuffixOf (joinPath e.rel) || !e.create then .ignored
  else
    match e.rel with
    | [] => .ignored                       -- len(parts) < 2
    | [_] => .ignored                      -- len(parts) < 2
    | [day, client] =>
      if day ≠ today then .ignored         -- parts[0] != getCurrentDateDir()
      else if uuidOK client then .watchedNewClient client
      else .ignored
    | [day, client, leaf] =>
      if day ≠ today then .ignored
      else if uuidOK client ∧ (".wav".toList).isSuffixOf leaf then
        if containsSub leaf ("_whisper".toList) then
          if queueLen < jobQueueCapacity then .enqueued client [day, client, leaf]
          else .queueFull
        else .ignored                      -- "WAV file does not contain '_whisper'"
      else .ignored
    | _ => .ignored

/-- Did the event put a job on the queue? -/
def isEnqueued : WatchAction → Bool
  | .enqueued _ _ => true
  | _ => false

theorem suffix_eq_of_length_eq (p1 p2 l : List Char) (h1 : p1 <:+ l) (h2 : p2 <:+ l)
    (hlen : p1.length = p2.length) : p1 = p2 := by
  obtain ⟨u, rfl⟩ := h1
  obtain ⟨v, hv⟩ := h2
  have hul : v.length = u.length := by
    have := congrArg List.length hv
    simp [List.length_append] at this
    omega
  exact ((List.append_inj hv hul).2).symm ▸ rfl

theorem wav_suffix_not_tmp (a b leaf : List Char)
    (hw : (".wav".toList) <:+ leaf) :
    ¬ (".tmp".toList) <:+ (joinPath [a, b, leaf]) := by
  intro hc
  have hleaf : leaf <:+ joinPath [a, b, leaf] := by
    show leaf <:+ a ++ '/' :: (b ++ '/' :: leaf)
    refine ⟨a ++ '/' :: b ++ ['/'], ?_⟩
    simp
  have := suffix_eq_of_length_eq (".wav".toList) (".tmp".toList) _
    (hw.trans hleaf) hc rfl
  simp at this

/-- C7 counterexample. A create event for
`20260101/00000000-0000-0000-0000-000000000001/audio_whisperette.wav` —
whose leaf merely *contains* `_whisper` but does not carry it as a suffix
before the `.wav` extension — is enqueued as a job: the watcher checks
`strings.Contains(parts[2], "_whisper")`, not a suffix. -/
theorem watcher_enqueues_contains_not_suffix :
    handleFSEvent ("20260101".toList) canonicalUUID 0
      ⟨["20260101".toList, "00000000-0000-0000-0000-000000000001".toList,
        "audio_whisperette.wav".toList], true, false⟩ =
      .enqueued ("00000000-0000-0000-0000-000000000001".toList)
        ["20260101".toList, "00000000-0000-0000-0000-000000000001".toList,
          "audio_whisperette.wav".toList] ∧
    ("_whisper.wav".toList).isSuffixOf ("audio_whisperette.wav".toList) = false := by
  constructor <;> decide

/-- C7 amended. For a create event with room in the job queue, a job is
enqueued if and only if the event path is exactly three components deep
below the recordings root, its first component is the current calendar day,
its second component parses as a valid endpoint id, and its leaf *contains*
the literal `_whisper` and ends in `.wav`; create events for paths ending in
the temporary-file marker `.tmp`, and events outside the current day's
subtree, never enqueue a job. -/
theorem watcher_enqueue_iff (today : List Char) (uuidOK : List Char → Bool)
    (queueLen : Nat) (e : WatchEvent)
    (hq : queueLen < jobQueueCapacity) (hcreate : e.create = true) :
    (isEnqueued (handleFSEvent today uuidOK queueLen e) = true ↔
      ∃ client leaf, e.rel = [today, client, leaf] ∧ uuidOK client = true ∧
        containsSub leaf ("_whisper".toList) = true ∧
        (".wav".toList) <:+ leaf) ∧
    ((".tmp".toList) <:+ (joinPath e.rel) →
      isEnqueued (handleFSEvent today uuidOK queueLen e) = false) ∧
    (∀ d rest, e.rel = d :: rest → d ≠ today →
      isEnqueued (handleFSEvent today uuidOK queueLen e) = false) := by
  obtain ⟨rel, create, isDir⟩ := e
  subst hcreate
  refine ⟨⟨?_, ?_⟩, ?_, ?_⟩
  · -- forward: enqueued → shape and conditions
    intro h
    rcases rel with _ | ⟨d, _ | ⟨c, _ | ⟨l, _ | ⟨x, xs⟩⟩⟩⟩
    · simp only [handleFSEvent] at h
      split at h <;> exact Bool.noConfusion h
    · simp only [handleFSEvent] at h
      split at h <;> exact Bool.noConfusion h
    · simp only [handleFSEvent] at h
      split at h
      · exact Bool.noConfusion h
      · split at h
        · exact Bool.noConfusion h
        · split at h <;> exact Bool.noConfusion h
    · simp only [handleFSEvent] at h
      split at h
      · exact Bool.noConfusion h
      · split at h
        · exact Bool.noConfusion h
        · split at h
          · split at h
            · rename_i hnotday hcond hcont
              have hday : d = today := not_ne_iff.mp hnotday
              exact ⟨c, l, by rw [hday], hcond.1, hcont,
                List.isSuffixOf_iff_suffix.mp hcond.2⟩
            · exact Bool.noConfusion h
          · exact Bool.noConfusion h
    · simp only [handleFSEvent] at h
      split at h <;> exact Bool.noConfusion h
  · -- backward: conditions → enqueued
    rintro ⟨client, leaf, hrel, huuid, hcontains, hwav⟩
    simp only at hrel
    subst hrel
    have hnotmp := wav_suffix_not_tmp today client leaf hwav
    have e1 : handleFSEvent today uuidOK queueLen ⟨[today, client, leaf], true, isDir⟩ =
        if (".tmp".toList).isSuffixOf (joinPath [today, client, leaf]) || !true then
          .ignored
        else if today ≠ today then .ignored
        else if uuidOK client ∧ (".wav".toList).isSuffixOf leaf then
          if containsSub leaf ("_whisper".toList) then
            if queueLen < jobQueueCapacity then .enqueued client [today, client, leaf]
            else .queueFull
          else .ignored
        else .ignored := rfl
    rw [e1,
      if_neg (by
        simp only [Bool.not_true, Bool.or_false, List.isSuffixOf_iff_suffix]
        exact hnotmp),
      if_neg (by simp),
      if_pos ⟨huuid, List.isSuffixOf_iff_suffix.mpr hwav⟩, if_pos hcontains, if_pos hq]
    rfl
  · -- .tmp paths never enqueue
    intro htmp
    simp only [handleFSEvent]
    rw [if_pos (by
      simp only [Bool.not_true, Bool.or_false, List.isSuffixOf_iff_suffix]
      exact htmp)]
    rfl
  · -- outside today's subtree never enqueue
    intro d rest hrel hne
    simp only at hrel
    subst hrel
    rcases rest with _ | ⟨c, _ | ⟨l, _ | ⟨x, xs⟩⟩⟩
    · simp only [handleFSEvent]
      split <;> rfl
    · simp only [handleFSEvent]
      split
      · rfl
      · rfl
    · simp only [handleFSEvent]
      split
      · rfl
      · rfl
    · simp only [handleFSEvent]
      split <;> rfl

/-- Witness for `watcher_enqueue_iff`: a canonical resampled artifact path
on the current day is enqueued. -/
theorem watcher_enqueue_iff_witness :
    isEnqueued (handleFSEvent ("20260101".toList) canonicalUUID 0
      ⟨["20260101".toList, "00000000-0000-0000-0000-000000000001".toList,
        "audio_120000_whisper.wav".toList], true, false⟩) = true := by
  have h := (watcher_enqueue_iff ("20260101".toList) canonicalUUID 0
    ⟨["20260101".toList, "00000000-0000-0000-0000-000000000001".toList,
      "audio_120000_whisper.wav".toList], true, false⟩
    (by norm_num [jobQueueCapacity]) rfl).1
  exact h.mpr ⟨"00000000-0000-0000-0000-000000000001".toList,
    "audio_120000_whisper.wav".toList, rfl, by decide, by decide, by decide⟩

/-! ## Worker transcript extraction (`scribe` package, `processor.go`)

`extractText` splits the recognizer output on newlines, skips lines that
are empty after `strings.TrimSpace` and lines containing the literal
`[BLANK_AUDIO]`, and joins the trimmed survivors with single spaces into
a `strings.Builder`, finally trimming the built string. -/

/-- The characters `unicode.IsSpace` recognizes in the Latin-1 range
(sufficient for `strings.TrimSpace` on recognizer output). -/
def isSpaceGo (c : Char) : Bool :=
  c == ' ' || c == '\t' || c == '\n' || c == '\r' || c == '\x0b' ||
    c == '\x0c' || c == '\u0085' || c == '\u00A0'

/-- Go's `strings.TrimSpace`. -/
def trimGo (s : List Char) : List Char :=
  ((s.dropWhile isSpaceGo).reverse.dropWhile isSpaceGo).reverse

/-- Go's `strings.Split(s, "\n")`. -/
def splitOnNewline : List Char → List (List Char)
  | [] => [[]]
  | c :: cs =>
    match splitOnNewline cs with
    | [] => [[]]
    | l :: ls => if c = '\n' then [] :: l :: ls else (c :: l) :: ls

/-- The literal marker whisper emits for silent audio. -/
def blankAudio : List Char := "[BLANK_AUDIO]".toList

/-- The body of `extractText`'s loop over lines, accumulating the
builder contents: skip blank lines and `[BLANK_AUDIO]` lines, and append
the trimmed line, preceded by a space when the builder is nonempty. -/
def accLine (acc line : List Char) : List Char :=
  if trimGo line = [] then acc
  else if containsSub line blankAudio then acc
  else
    let text := trimGo line
    if text ≠ [] then (if acc.length > 0 then acc ++ [' '] else acc) ++ text
    else acc

/-- Go function `extractText` (lines 144-170 of the worker file). -/
def extractText (output : List Char) : List Char :=
  trimGo ((splitOnNewline output).foldl accLine [])

/-- The specification's description of the extraction: split on line
breaks, discard lines empty after trimming and lines containing
`[BLANK_AUDIO]`, trim each survivor and join with single spaces. -/
def joinSpace : List (List Char) → List Char
  | [] => []
  | [x] => x
  | x :: xs => x ++ ' ' :: joinSpace xs

/-- The surviving, trimmed lines. -/
def survivors (lines : List (List Char)) : List (List Char) :=
  (lines.filter (fun l => !(trimGo l).isEmpty && !containsSub l blankAudio)).map trimGo

/-- The extraction algorithm exactly as the specification words it. -/
def extractTextSpec (output : List Char) : List Char :=
  joinSpace (survivors (splitOnNewline output))

/-- Prepend `' '` to every piece, concatenated: what gluing onto a
nonempty builder appends. -/
def sepAll (ps : List (List Char)) : List Char :=
  (ps.map (fun x => ' ' :: x)).flatten

theorem joinSpace_cons (x : List Char) (xs : List (List Char)) :
    joinSpace (x :: xs) = x ++ sepAll xs := by
  induction xs generalizing x with
  | nil => simp [joinSpace, sepAll]
  | cons y ys ih =>
    rw [show joinSpace (x :: y :: ys) = x ++ ' ' :: joinSpace (y :: ys) from rfl, ih y]
    simp [sepAll]

theorem accLine_skip_blank (acc line : List Char) (h : trimGo line = []) :
    accLine acc line = acc := by
  simp [accLine, h]

theorem accLine_skip_marker (acc line : List Char) (h : containsSub line blankAudio = true) :
    accLine acc line = acc := by
  by_cases hb : trimGo line = []
  · simp [accLine, hb]
  · simp [accLine, hb, h]

theorem accLine_take (acc line : List Char) (hb : trimGo line ≠ [])
    (hm : containsSub line blankAudio = false) :
    accLine acc line = (if acc.length > 0 then acc ++ [' '] else acc) ++ trimGo line := by
  simp [accLine, hb, hm]

theorem survivors_cons_skip (l : List Char) (ls : List (List Char))
    (h : trimGo l = [] ∨ containsSub l blankAudio = true) :
    survivors (l :: ls) = survivors ls := by
  unfold survivors
  rw [List.filter_cons]
  rcases h with h | h <;> simp [h, List.isEmpty_iff]

theorem survivors_cons_take (l : List Char) (ls : List (List Char))
    (hb : trimGo l ≠ []) (hm : containsSub l blankAudio = false) :
    survivors (l :: ls) = trimGo l :: survivors ls := by
  unfold survivors
  rw [List.filter_cons]
  simp [hb, hm, List.isEmpty_iff]

theorem foldl_accLine_ne (lines : List (List Char)) :
    ∀ acc : List Char, acc ≠ [] →
      lines.foldl accLine acc = acc ++ sepAll (survivors lines) := by
  induction lines with
  | nil =>
    intro acc _
    simp [survivors, sepAll]
  | cons l ls ih =>
    intro acc hacc
    rw [List.foldl_cons]
    by_cases hb : trimGo l = []
    · rw [accLine_skip_blank acc l hb, ih acc hacc, survivors_cons_skip l ls (Or.inl hb)]
    · by_cases hm : containsSub l blankAudio = true
      · rw [accLine_skip_marker acc l hm, ih acc hacc, survivors_cons_skip l ls (Or.inr hm)]
      · rw [accLine_take acc l hb (by simpa using hm),
          if_pos (List.length_pos.mpr hacc),
          ih (acc ++ [' '] ++ trimGo l) (by simp),
          survivors_cons_take l ls hb (by simpa using hm)]
        simp [sepAll]

theorem foldl_accLine_nil (lines : List (List Char)) :
    lines.foldl accLine [] = joinSpace (survivors lines) := by
  induction lines with
  | nil => simp [survivors, joinSpace]
  | cons l ls ih =>
    rw [List.foldl_cons]
    by_cases hb : trimGo l = []
    · rw [accLine_skip_blank [] l hb, ih, survivors_cons_skip l ls (Or.inl hb)]
    · by_cases hm : containsSub l blankAudio = true
      · rw [accLine_skip_marker [] l hm, ih, survivors_cons_skip l ls (Or.inr hm)]
      · rw [accLine_take [] l hb (by simpa using hm)]
        simp only [List.length_nil, gt_iff_lt, Nat.lt_irrefl, if_false, List.nil_append]
        rw [foldl_accLine_ne ls (trimGo l) hb,
          survivors_cons_take l ls hb (by simpa using hm), joinSpace_cons]

theorem dropWhile_head_false (p : Char → Bool) (l : List Char) (a : Char)
    (h : (l.dropWhile p).head? = some a) : p a = false := by
  induction l with
  | nil => cases h
  | cons c cs ih =>
    rw [List.dropWhile_cons] at h
    by_cases hc : p c = true
    · rw [if_pos hc] at h
      exact ih h
    · rw [if_neg hc] at h
      injection h with h
      rw [← h]
      simpa using hc

theorem dropWhile_eq_self_of_head (p : Char → Bool) (l : List Char)
    (h : ∀ a, l.head? = some a → p a = false) : l.dropWhile p = l := by
  cases l with
  | nil => rfl
  | cons c cs =>
    rw [List.dropWhile_cons, if_neg]
    simp [h c rfl]

theorem getLast?_of_suffix (r m : List Char) (h : r <:+ m) (hne : r ≠ []) :
    r.getLast? = m.getLast? := by
  obtain ⟨u, rfl⟩ := h
  rw [List.getLast?_append_of_ne_nil u hne]

/-- A nonempty trimmed string neither starts nor ends with whitespace. -/
theorem trimGo_ends (s : List Char) (hne : trimGo s ≠ []) :
    (∀ a, (trimGo s).head? = some a → isSpaceGo a = false) ∧
    (∀ a, (trimGo s).getLast? = some a → isSpaceGo a = false) := by
  unfold trimGo at hne ⊢
  constructor
  · intro a ha
    rw [List.head?_reverse] at ha
    have hsub : ((s.dropWhile isSpaceGo).reverse.dropWhile isSpaceGo) <:+
        (s.dropWhile isSpaceGo).reverse := List.dropWhile_suffix _
    have hrne : (s.dropWhile isSpaceGo).reverse.dropWhile isSpaceGo ≠ [] := by
      intro hh
      rw [hh] at hne
      exact hne rfl
    rw [getLast?_of_suffix _ _ hsub hrne, List.getLast?_reverse] at ha
    exact dropWhile_head_false isSpaceGo s a ha
  · intro a ha
    rw [List.getLast?_reverse] at ha
    exact dropWhile_head_false isSpaceGo (s.dropWhile isSpaceGo).reverse a ha

/-- Trimming is the identity on a string that neither starts nor ends
with whitespace. -/
theorem trimGo_eq_self (s : List Char)
    (h1 : ∀ a, s.head? = some a → isSpaceGo a = false)
    (h2 : ∀ a, s.getLast? = some a → isSpaceGo a = false) : trimGo s = s := by
  unfold trimGo
  rw [dropWhile_eq_self_of_head isSpaceGo s h1]
  rw [dropWhile_eq_self_of_head isSpaceGo s.reverse
    (fun a ha => h2 a (by rwa [List.head?_reverse] at ha))]
  exact List.reverse_reverse s

theorem joinSpace_ne_nil (ps : List (List Char)) (hps : ps ≠ [])
    (hne : ∀ x ∈ ps, x ≠ []) : joinSpace ps ≠ [] := by
  match ps with
  | [x] =>
    exact hne x (by simp)
  | x :: y :: ys =>
    rw [show joinSpace (x :: y :: ys) = x ++ ' ' :: joinSpace (y :: ys) from rfl]
    simp

theorem joinSpace_head (ps : List (List Char)) (hne : ∀ x ∈ ps, x ≠ [])
    (hh : ∀ x ∈ ps, ∀ a, x.head? = some a → isSpaceGo a = false) :
    ∀ a, (joinSpace ps).head? = some a → isSpaceGo a = false := by
  match ps with
  | [] => intro a ha; cases ha
  | [x] => exact hh x (by simp)
  | x :: y :: ys =>
    intro a ha
    rw [show joinSpace (x :: y :: ys) = x ++ ' ' :: joinSpace (y :: ys) from rfl] at ha
    rw [List.head?_append] at ha
    cases hx : x.head? with
    | none =>
      exact absurd (List.head?_eq_none_iff.mp hx) (hne x (by simp))
    | some b =>
      rw [hx] at ha
      injection ha with ha
      rw [← ha]
      exact hh x (by simp) b hx

theorem joinSpace_last (ps : List (List Char)) (hne : ∀ x ∈ ps, x ≠ [])
    (hl : ∀ x ∈ ps, ∀ a, x.getLast? = some a → isSpaceGo a = false) :
    ∀ a, (joinSpace ps).getLast? = some a → isSpaceGo a = false := by
  match ps with
  | [] => intro a ha; cases ha
  | [x] => exact hl x (by simp)
  | x :: y :: ys =>
    intro a ha
    rw [show joinSpace (x :: y :: ys) = x ++ ' ' :: joinSpace (y :: ys) from rfl] at ha
    rw [List.getLast?_append_of_ne_nil x (by simp)] at ha
    have hjs : joinSpace (y :: ys) ≠ [] :=
      joinSpace_ne_nil (y :: ys) (by simp) (fun z hz => hne z (by simp [hz]))
    rw [show (' ' :: joinSpace (y :: ys)) = [' '] ++ joinSpace (y :: ys) from rfl,
      List.getLast?_append_of_ne_nil [' '] hjs] at ha
    exact joinSpace_last (y :: ys) (fun z hz => hne z (by simp [hz]))
      (fun z hz => hl z (by simp [hz])) a ha

theorem survivors_trimmed (lines : List (List Char)) :
    ∀ x ∈ survivors lines, x ≠ [] ∧
      (∀ a, x.head? = some a → isSpaceGo a = false) ∧
      (∀ a, x.getLast? = some a → isSpaceGo a = false) := by
  intro x hx
  unfold survivors at hx
  rw [List.mem_map] at hx
  obtain ⟨l, hl, rfl⟩ := hx
  rw [List.mem_filter] at hl
  have hne : trimGo l ≠ [] := by
    have := hl.2
    simp only [Bool.and_eq_true, Bool.not_eq_true'] at this
    simpa [List.isEmpty_iff] using this.1
  exact ⟨hne, (trimGo_ends l hne).1, (trimGo_ends l hne).2⟩

theorem trimGo_joinSpace_survivors (lines : List (List Char)) :
    trimGo (joinSpace (survivors lines)) = joinSpace (survivors lines) := by
  cases hs : survivors lines with
  | nil => rfl
  | cons x xs =>
    have hmem := survivors_trimmed lines
    rw [hs] at hmem
    exact trimGo_eq_self _
      (joinSpace_head (x :: xs) (fun z hz => (hmem z hz).1)
        (fun z hz => (hmem z hz).2.1))
      (joinSpace_last (x :: xs) (fun z hz => (hmem z hz).1)
        (fun z hz => (hmem z hz).2.2))

/-! ## Worker job processing and subscriber fan-out
(`scribe` package, `processor.go` and `websocket.go`) -/

/-- A stored transcript entry (`TranscriptionMessage`); the `confidence`
field models the constant float `1.0` as the integer `1`. -/
structure TranscriptionMessage where
  timestamp : Nat
  text : List Char
  audioFile : List Char
  confidence : Nat
deriving DecidableEq, Repr

/-- A queued transcription job: the audio path (as components), the
endpoint id, and the enqueue time. -/
structure TranscriptionJob where
  filePath : List (List Char)
  clientID : List Char
  timestamp : Nat
deriving DecidableEq, Repr

/-- The fan-out envelope (`WebSocketMessage`): `{type, clientId,
timestamp, payload}` with `type = "transcription"`. -/
structure WSMessage where
  msgType : List Char
  clientID : List Char
  timestamp : Nat
  payload : TranscriptionMessage
deriving DecidableEq, Repr

/-- The scribe's shared maps: `clients` (endpoint id → transcript log)
and `subscribers` (endpoint id → the outbound queues of its live
subscribers), modelled as association lists. -/
structure ScribeState where
  clients : List (List Char × List TranscriptionMessage)
  subscribers : List (List Char × List (List WSMessage))
deriving DecidableEq, Repr

/-- Go's `filepath.Base` on a component list. -/
def basename (p : List (List Char)) : List Char := p.getLastD []

/-- Association-list lookup (`sync.Map.Load`). -/
def alookup {β : Type} (k : List Char) : List (List Char × β) → Option β
  | [] => none
  | (k2, v) :: rest => if k2 = k then some v else alookup k rest

/-- The `LoadOrStore` + append + `Store` sequence on the transcript map: the
endpoint's log grows by `msg`, created if absent. -/
def upsertAppend (cid : List Char) (msg : TranscriptionMessage) :
    List (List Char × List TranscriptionMessage) →
      List (List Char × List TranscriptionMessage)
  | [] => [(cid, [msg])]
  | (k, v) :: rest =>
    if k = cid then (k, v ++ [msg]) :: rest else (k, v) :: upsertAppend cid msg rest

/-- Capacity of every subscriber's outbound queue:
`send: make(chan []byte, 256)` in `handleWebSocket`. -/
def subscriberQueueCapacity : Nat := 256

/-- The non-blocking hand-off `select { case conn.send <- data: ...
default: ... }`: enqueue when the channel has room, otherwise drop the
message for this subscriber. -/
def offer (msg : WSMessage) (q : List WSMessage) : List WSMessage :=
  if q.length < subscriberQueueCapacity then q ++ [msg] else q

/-- The fan-out loop of `processJob`: offer the envelope to each queue of
the job's endpoint; all other endpoints' queues are untouched. -/
def publish (cid : List Char) (msg : WSMessage) :
    List (List Char × List (List WSMessage)) → List (List Char × List (List WSMessage))
  | [] => []
  | (k, qs) :: rest =>
    if k = cid then (k, qs.map (offer msg)) :: rest
    else (k, qs) :: publish cid msg rest

/-- Go function `processJob` after a successful recognizer run with standard output
`out` (lines 74–142 of the worker file): extract the text; when empty,
log and return `nil` without touching any state; otherwise append the
transcript message to the endpoint's log and offer the serialized
envelope to every current subscriber of that endpoint.  The returned
`Option` is the function's error result. -/
def processJob (s : ScribeState) (job : TranscriptionJob) (out : List Char) :
    ScribeState × Option (List Char) :=
  let text := extractText out
  if text = [] then (s, none)
  else
    let msg : TranscriptionMessage :=
      { timestamp := job.timestamp, text := text,
        audioFile := basename job.filePath, confidence := 1 }
    let wsMsg : WSMessage :=
      { msgType := "transcription".toList, clientID := job.clientID,
        timestamp := job.timestamp, payload := msg }
    ({ clients := upsertAppend job.clientID msg s.clients,
       subscribers := publish job.clientID wsMsg s.subscribers }, none)

/-- C8. The extracted transcript equals the specification's
description — split on line breaks, discard lines empty after trimming
and lines containing `[BLANK_AUDIO]`, trim each survivor and join with
single spaces — and whenever that result is empty, `processJob` appends
no transcript message and surfaces no error (state unchanged, `nil`
returned). -/
theorem extractText_matches_spec (output : List Char) :
    extractText output = extractTextSpec output ∧
    (∀ (s : ScribeState) (job : TranscriptionJob),
      extractText output = [] → processJob s job output = (s, none)) := by
  constructor
  · unfold extractText extractTextSpec
    rw [foldl_accLine_nil]
    exact trimGo_joinSpace_survivors (splitOnNewline output)
  · intro s job h
    unfold processJob
    simp [h]

/-- Witness for `extractText_matches_spec` on an output of one
`[BLANK_AUDIO]` line and one whitespace line. -/
theorem extractText_matches_spec_witness :
    extractText ("[BLANK_AUDIO]\n  ".toList) =
      extractTextSpec ("[BLANK_AUDIO]\n  ".toList) ∧
    processJob ⟨[], []⟩ ⟨[], [], 0⟩ ("[BLANK_AUDIO]\n  ".toList) = (⟨[], []⟩, none) :=
  ⟨(extractText_matches_spec ("[BLANK_AUDIO]\n  ".toList)).1,
    (extractText_matches_spec ("[BLANK_AUDIO]\n  ".toList)).2 ⟨[], []⟩ ⟨[], [], 0⟩
      (by decide)⟩

theorem publish_lookup_self (cid : List Char) (msg : WSMessage)
    (subs : List (List Char × List (List WSMessage))) (qs : List (List WSMessage))
    (h : alookup cid subs = some qs) :
    alookup cid (publish cid msg subs) = some (qs.map (offer msg)) := by
  induction subs with
  | nil => cases h
  | cons kv rest ih =>
    obtain ⟨k, v⟩ := kv
    by_cases hk : k = cid
    · rw [alookup, if_pos hk] at h
      injection h with h
      subst h
      rw [publish, if_pos hk, alookup, if_pos hk]
    · rw [alookup, if_neg hk] at h
      rw [publish, if_neg hk, alookup, if_neg hk]
      exact ih h

theorem publish_lookup_other (cid cid2 : List Char) (msg : WSMessage)
    (subs : List (List Char × List (List WSMessage))) (hne : cid2 ≠ cid) :
    alookup cid2 (publish cid msg subs) = alookup cid2 subs := by
  induction subs with
  | nil => rfl
  | cons kv rest ih =>
    obtain ⟨k, v⟩ := kv
    by_cases hk : k = cid
    · rw [publish, if_pos hk, alookup, alookup, if_neg (hk ▸ fun hh => hne hh.symm),
        if_neg (hk ▸ fun hh => hne hh.symm)]
    · rw [publish, if_neg hk, alookup, alookup]
      by_cases hk2 : k = cid2
      · rw [if_pos hk2, if_pos hk2]
      · rw [if_neg hk2, if_neg hk2]
        exact ih

/-- C9. Publishing a transcript offers the envelope to each current
subscriber queue of the job's endpoint via the non-blocking `offer` into
its 256-slot queue: a full queue drops the message for that subscriber
only (its queue is unchanged), every other queue of the endpoint still
receives the hand-off independently, and subscribers of other endpoints
are untouched. -/
theorem publish_per_subscriber (s : ScribeState) (job : TranscriptionJob)
    (out : List Char) (htext : extractText out ≠ []) :
    ((processJob s job out).1.subscribers =
      publish job.clientID
        { msgType := "transcription".toList, clientID := job.clientID,
          timestamp := job.timestamp,
          payload := { timestamp := job.timestamp, text := extractText out,
                       audioFile := basename job.filePath, confidence := 1 } }
        s.subscribers) ∧
    subscriberQueueCapacity = 256 ∧
    (∀ (cid : List Char) (msg : WSMessage) (qs : List (List WSMessage)),
      alookup cid s.subscribers = some qs →
        alookup cid (publish cid msg s.subscribers) = some (qs.map (offer msg))) ∧
    (∀ (cid cid2 : List Char) (msg : WSMessage), cid2 ≠ cid →
      alookup cid2 (publish cid msg s.subscribers) = alookup cid2 s.subscribers) ∧
    (∀ (msg : WSMessage) (qs : List (List WSMessage)) (i : Nat),
      (qs.map (offer msg)).get? i = (qs.get? i).map (offer msg)) ∧
    (∀ (msg : WSMessage) (q : List WSMessage),
      subscriberQueueCapacity ≤ q.length → offer msg q = q) ∧
    (∀ (msg : WSMessage) (q : List WSMessage),
      q.length < subscriberQueueCapacity → offer msg q = q ++ [msg]) := by
  refine ⟨?_, rfl, ?_, ?_, ?_, ?_, ?_⟩
  · unfold processJob
    simp [htext]
  · intro cid msg qs h
    exact publish_lookup_self cid msg s.subscribers qs h
  · intro cid cid2 msg hne
    exact publish_lookup_other cid cid2 msg s.subscribers hne
  · intro msg qs i
    exact List.get?_map (offer msg) qs i
  · intro msg q h
    unfold offer
    rw [if_neg (Nat.not_lt.mpr h)]
  · intro msg q h
    unfold offer
    rw [if_pos h]

/-- Witness for `publish_per_subscriber`: a job for endpoint `c1` with a
nonempty transcript, one subscriber of `c1` with a full queue and one
with room. -/
theorem publish_per_subscriber_witness :
    (processJob
        ⟨[], [("c1".toList, [List.replicate 256 ⟨[], [], 0, ⟨0, [], [], 1⟩⟩, []])]⟩
        ⟨["a.wav".toList], "c1".toList, 7⟩ ("hi".toList)).1.subscribers =
      publish ("c1".toList)
        { msgType := "transcription".toList, clientID := "c1".toList,
          timestamp := 7,
          payload := { timestamp := 7, text := extractText ("hi".toList),
                       audioFile := basename ["a.wav".toList], confidence := 1 } }
        [("c1".toList, [List.replicate 256 ⟨[], [], 0, ⟨0, [], [], 1⟩⟩, []])] :=
  (publish_per_subscriber
    ⟨[], [("c1".toList, [List.replicate 256 ⟨[], [], 0, ⟨0, [], [], 1⟩⟩, []])]⟩
    ⟨["a.wav".toList], "c1".toList, 7⟩ ("hi".toList) (by decide)).1

/-! ## Resample invoker (`audio` package, `ResampleForWhisper`) -/

/-- The output-path derivation of `ResampleForWhisper`:
`outputPath := inputPath[:len(inputPath)-4] + "_whisper.wav"`.  In Go,
slicing with a negative bound panics, which `none` models: the function
is only safe for inputs of length at least 4. -/
def resampleOutputPath (inputPath : List Char) : Option (List Char) :=
  if inputPath.length < 4 then none
  else some (inputPath.take (inputPath.length - 4) ++ "_whisper.wav".toList)

/-- C10. For every input path ending in `.wav` the resample output
path is the sibling with the `.wav` extension replaced by
`_whisper.wav`; for any input shorter than four characters the slice
bound is out of range (panic, modelled as `none`). -/
theorem resample_path_derivation :
    (∀ stem : List Char, resampleOutputPath (stem ++ ".wav".toList) =
      some (stem ++ "_whisper.wav".toList)) ∧
    (∀ p : List Char, p.length < 4 → resampleOutputPath p = none) := by
  constructor
  · intro stem
    unfold resampleOutputPath
    rw [if_neg (by simp [List.length_append])]
    have h1 : (stem ++ ".wav".toList).length - 4 = stem.length := by
      simp [List.length_append]
    rw [h1, List.take_left]
  · intro p h
    unfold resampleOutputPath
    rw [if_pos h]

/-- Witness for `resample_path_derivation` at `audio.wav` and the
too-short path `ab`. -/
theorem resample_path_derivation_witness :
    resampleOutputPath ("audio".toList ++ ".wav".toList) =
      some ("audio".toList ++ "_whisper.wav".toList) ∧
    (("ab".toList : List Char).length < 4 ∧ resampleOutputPath ("ab".toList) = none) :=
  ⟨resample_path_derivation.1 ("audio".toList),
    by decide, resample_path_derivation.2 ("ab".toList) (by decide)⟩

end Libas
